import Mathlib

/-!
Verification of the credential issuance and verification subsystem of the
delta-sharing server.

The development shallowly embeds the Rust sources:
  src/server/utilities/token.rs      (HMAC bearer-token codec)
  src/config.rs                      (hash-algorithm selection)
  src/utils/jwt.rs                   (role derivation and role gating)
  src/server/utilities/signed_url.rs (object-store URL classification)
  src/server/services/profile.rs     (claims-scheme expiry computation)

Strings are modelled as lists of characters; bytes as elements of Fin 256.
The HMAC primitive itself lives in an external crate; it is abstracted as a
MacModel: a deterministic keyed function per hash algorithm whose output
length is the algorithm's digest length, exactly the interface the Rust
code relies on.  The process-wide SECRET is absorbed into the abstract
function (it is fixed for the lifetime of the process).
-/

deriving instance DecidableEq for Except

/-- Bytes, as produced by hex decoding and by the MAC primitive. -/
abbrev Byte := Fin 256

/-- The error kinds the token codec can report.  The Rust code uses anyhow
errors whose context messages distinguish exactly these cases:
parse is the expect_two failure (message failed to parse token), decode the
hex decoding failure of the signature segment, mac the verify_slice
mismatch, range the TTL or expiry conversion failure. -/
inductive TokenError
  | parse
  | decode
  | mac
  | range
deriving DecidableEq, Repr

/-- The four supported HMAC hash widths, from enum Hasher in token.rs. -/
inductive Hasher
  | Sha224
  | Sha256
  | Sha384
  | Sha512
deriving DecidableEq, Repr

/-- Digest length in bytes of each hash algorithm (SHA-224, SHA-256,
SHA-384, SHA-512 produce 28, 32, 48, 64 bytes). -/
def digestLen : Hasher → Nat
  | .Sha224 => 28
  | .Sha256 => 32
  | .Sha384 => 48
  | .Sha512 => 64

/-- Abstract model of the HMAC primitive over the process-wide secret:
a deterministic function per algorithm producing digestLen bytes.  The
argument is the character string the Rust code feeds to mac.update as
UTF-8 bytes. -/
structure MacModel where
  mac : Hasher → List Char → List Byte
  len : ∀ h b, (mac h b).length = digestLen h

/-- Lowercase hexadecimal digit for a value below 16 (as produced by
hex encoding and by Rust lower-hex integer formatting). -/
def hexDigitChar : Nat → Char
  | 0 => '0'
  | 1 => '1'
  | 2 => '2'
  | 3 => '3'
  | 4 => '4'
  | 5 => '5'
  | 6 => '6'
  | 7 => '7'
  | 8 => '8'
  | 9 => '9'
  | 10 => 'a'
  | 11 => 'b'
  | 12 => 'c'
  | 13 => 'd'
  | 14 => 'e'
  | 15 => 'f'
  | _ => '0'

/-- Is the character a hexadecimal digit (either case), as accepted by the
hex crate's decoder. -/
def isHexDigit (c : Char) : Bool :=
  (('0' ≤ c) && (c ≤ '9')) || (('a' ≤ c) && (c ≤ 'f')) || (('A' ≤ c) && (c ≤ 'F'))

/-- hex crate encoding: every byte becomes two lowercase hex digits. -/
def hexEncode : List Byte → List Char
  | [] => []
  | b :: bs => hexDigitChar (b.val / 16) :: hexDigitChar (b.val % 16) :: hexEncode bs

/-- Numeric value of a hex digit character, accepting both cases,
mirroring the hex crate's decoder. -/
def hexDigitVal (c : Char) : Option Nat :=
  if ('0' ≤ c) ∧ (c ≤ '9') then some (c.toNat - 48)
  else if ('a' ≤ c) ∧ (c ≤ 'f') then some (c.toNat - 87)
  else if ('A' ≤ c) ∧ (c ≤ 'F') then some (c.toNat - 55)
  else none

/-- hex crate decoding: pairs of hex digits become bytes; an odd-length
input or a non-hex character is a failure. -/
def hexDecode : List Char → Option (List Byte)
  | [] => some []
  | [_] => none
  | c1 :: c2 :: rest =>
    match hexDigitVal c1, hexDigitVal c2, hexDecode rest with
    | some hi, some lo, some bs =>
        some (⟨(16 * hi + lo) % 256, Nat.mod_lt _ (by decide)⟩ :: bs)
    | _, _, _ => none

/-- Rust lower-hex formatting of a natural number (the second token
segment), via the usual fuel-based digit accumulator; fuel n + 1 always
suffices and zero prints as the single digit 0. -/
def hexOfNatCore : Nat → Nat → List Char → List Char
  | 0, _, acc => acc
  | fuel + 1, n, acc =>
    let acc' := hexDigitChar (n % 16) :: acc
    if n < 16 then acc' else hexOfNatCore fuel (n / 16) acc'

/-- Rust formatting of a nonnegative integer with the lower-hex format
specifier, as used for the expiry segment. -/
def hexOfNat (n : Nat) : List Char := hexOfNatCore (n + 1) n []

/-- Splitting used by verify: token.rsplitn(2, dot) together with the
expect_two macro.  Returns the segment after the last dot and everything
before it, or nothing when the string has no dot at all. -/
def rsplit2 : List Char → Option (List Char × List Char)
  | [] => none
  | c :: rest =>
    match rsplit2 rest with
    | some (sig, body) => some (sig, c :: body)
    | none => if c = '.' then some (rest, []) else none

/-- Largest signed 64-bit integer, the bound of the i64 conversion of the
expiry seconds. -/
def I64MAX : Nat := 9223372036854775807

/-- new_exp from token.rs: converts the i64 TTL to u64 (failing on a
negative TTL), adds it to the current UNIX time in seconds, and converts
the sum back to i64 (failing when it exceeds the i64 range).  The current
time is passed explicitly as now; the model assumes the u64 addition does
not wrap, which holds for every realistic clock value. -/
def new_exp (now : Nat) (ttl : Int) : Except TokenError Nat :=
  if ttl < 0 then .error .range
  else if now + ttl.toNat ≤ I64MAX then .ok (now + ttl.toNat) else .error .range

/-- The MAC input and the first two token segments: hex of the token id,
a dot, lower-hex of the expiry. -/
def tokenBody (tid : List Byte) (exp : Nat) : List Char :=
  hexEncode tid ++ '.' :: hexOfNat exp

/-- One arm of Utility::sign after expiry computation: serialize body and
hex of its MAC under the given algorithm. -/
def signCore (M : MacModel) (h : Hasher) (tid : List Byte) (exp : Nat) : List Char :=
  tokenBody tid exp ++ '.' :: hexEncode (M.mac h (tokenBody tid exp))

/-- Utility::sign from token.rs: compute the expiry, then branch on the
hasher; each arm MACs the body hex(tid).hex(exp) and appends the hex MAC
as a third dot-separated segment. -/
def Utility.sign (M : MacModel) (tid : List Byte) (ttl : Int) (now : Nat)
    (h : Hasher) : Except TokenError (List Char) :=
  match new_exp now ttl with
  | .error e => .error e
  | .ok exp =>
    match h with
    | .Sha224 => .ok (signCore M .Sha224 tid exp)
    | .Sha256 => .ok (signCore M .Sha256 tid exp)
    | .Sha384 => .ok (signCore M .Sha384 tid exp)
    | .Sha512 => .ok (signCore M .Sha512 tid exp)

/-- One arm of Utility::verify after segment splitting: hex-decode the
signature segment and compare it with the recomputed MAC of the body. -/
def verifyCore (M : MacModel) (h : Hasher) (sig body : List Char) :
    Except TokenError Unit :=
  match hexDecode sig with
  | none => .error .decode
  | some sigBytes => if M.mac h body = sigBytes then .ok () else .error .mac

/-- Utility::verify from token.rs: split the token at its last dot via
rsplitn(2) and expect_two, then branch on the hasher; each arm recomputes
the MAC over the body and compares it with the decoded signature. -/
def Utility.verify (M : MacModel) (token : List Char) (h : Hasher) :
    Except TokenError Unit :=
  match rsplit2 token with
  | none => .error .parse
  | some (sig, body) =>
    match h with
    | .Sha224 => verifyCore M .Sha224 sig body
    | .Sha256 => verifyCore M .Sha256 sig body
    | .Sha384 => verifyCore M .Sha384 sig body
    | .Sha512 => verifyCore M .Sha512 sig body

/-- The tampering operation of claim C2 (also the test helper in
token.rs): replace the first dot-separated segment of a token and
re-serialize; everything from the first dot on is kept. -/
def replaceFirstSeg (tok newSeg : List Char) : List Char :=
  newSeg ++ tok.dropWhile (fun c => c != '.')

/-- Number of dot characters of a token string. -/
def countDots (l : List Char) : Nat := (l.filter (fun c => c == '.')).length

/-- Generic single-character splitter; splitDots below instantiates it to
describe the dot-separated segments of a token. -/
def splitOnChar (sep : Char) : List Char → List (List Char)
  | [] => [[]]
  | c :: rest =>
    let ss := splitOnChar sep rest
    if c = sep then [] :: ss
    else
      match ss with
      | s :: tl => (c :: s) :: tl
      | [] => [[c]]

/-- The dot-separated segments of a token string. -/
def splitDots (l : List Char) : List (List Char) := splitOnChar '.' l

/-- A tiny concrete instance of the MAC interface used to evaluate the
theorems on closed inputs: digestLen h copies of the input length reduced
modulo 256. -/
def demoByte (n : Nat) : Byte := ⟨n % 256, Nat.mod_lt _ (by decide)⟩

/-- Concrete MacModel built from demoByte. -/
def demoMacModel : MacModel :=
  ⟨fun h body => List.replicate (digestLen h) (demoByte body.length),
   fun _ _ => List.length_replicate _ _⟩

/-- ASCII-lowercased string, as produced by Rust eq_ignore_ascii_case
comparisons and by URL scheme normalization (Char.toLower only affects
ASCII uppercase letters, exactly like to_ascii_lowercase). -/
def lowerStr (s : List Char) : List Char := s.map Char.toLower

/-- Rust str::eq_ignore_ascii_case: pointwise ASCII-case-insensitive
equality of equal-length strings. -/
def eqIgnoreAsciiCase : List Char → List Char → Bool
  | [], [] => true
  | a :: as', b :: bs' => (Char.toLower a == Char.toLower b) && eqIgnoreAsciiCase as' bs'
  | _, _ => false

/-- Hasher::from_str derived by strum with ascii_case_insensitive: the
input is compared case-insensitively against the four variant names; no
match is a parse error. -/
def Hasher.fromStr (s : List Char) : Option Hasher :=
  if eqIgnoreAsciiCase s ("Sha224".data) then some .Sha224
  else if eqIgnoreAsciiCase s ("Sha256".data) then some .Sha256
  else if eqIgnoreAsciiCase s ("Sha384".data) then some .Sha384
  else if eqIgnoreAsciiCase s ("Sha512".data) then some .Sha512
  else none

/-- The HASHER configuration value from config.rs:
HmacHasher::from_str(..).unwrap_or(HmacHasher::Sha256). -/
def hasherOfConfig (s : List Char) : Hasher := (Hasher.fromStr s).getD .Sha256

/-- Role enumeration from utils/jwt.rs. -/
inductive Role
  | Admin
  | Guest
deriving DecidableEq, Repr

/-- Role::from_str derived by strum with ascii_case_insensitive. -/
def Role.fromStr (s : List Char) : Option Role :=
  if eqIgnoreAsciiCase s ("Admin".data) then some .Admin
  else if eqIgnoreAsciiCase s ("Guest".data) then some .Guest
  else none

/-- The claim set of utils/jwt.rs (the field called namespace in Rust is
called nspace here because namespace is a Lean keyword). -/
structure Claims where
  name : List Char
  email : List Char
  nspace : List Char
  role : Role
  exp : Int
deriving DecidableEq, Repr

/-- path.trim_start_matches with pattern slash: removes every leading
slash. -/
def trimLeadingSlashes : List Char → List Char
  | '/' :: rest => trimLeadingSlashes rest
  | l => l

/-- First segment of path.split with separator slash. -/
def firstSegment (l : List Char) : List Char := l.takeWhile (fun c => c != '/')

/-- required_role_of from utils/jwt.rs: strip leading slashes, take the
first path segment, parse it as a Role, default to Guest. -/
def required_role_of (path : List Char) : Role :=
  match Role.fromStr (firstSegment (trimLeadingSlashes path)) with
  | some role => role
  | none => .Guest

/-- The single rejection kind of the claims extractor. -/
inductive AuthError
  | unauthorized
deriving DecidableEq, Repr

/-- The decision logic of Claims::from_request_parts from utils/jwt.rs.
The bearer argument models the two external steps: the outer Option is
presence of a well-formed Authorization header, the inner Option is the
outcome of the JWT decode (a valid claim set or a decode failure).  After
a successful decode the role gate runs: a Guest requirement accepts any
valid claim set; otherwise a Guest-role claim set is rejected. -/
def Claims.from_request_parts (path : List Char) (bearer : Option (Option Claims)) :
    Except AuthError Claims :=
  match bearer with
  | some (some claims) =>
    if required_role_of path = Role.Guest then .ok claims
    else if claims.role = Role.Guest then .error .unauthorized
    else .ok claims
  | some none => .error .unauthorized
  | none => .error .unauthorized

/-- new_exp from services/profile.rs (the claims scheme): identical TTL
conversion and i64 range check as the HMAC scheme, followed by the chrono
datetime conversion whose own upper bound is abstracted as chronoMax. -/
def profileNewExp (chronoMax : Nat) (now : Nat) (ttl : Int) : Except TokenError Nat :=
  if ttl < 0 then .error .range
  else if now + ttl.toNat ≤ I64MAX then
    if now + ttl.toNat ≤ chronoMax then .ok (now + ttl.toNat) else .error .range
  else .error .range

/-- ASCII letter test. -/
def isAsciiAlpha (c : Char) : Bool := (('a' ≤ c) && (c ≤ 'z')) || (('A' ≤ c) && (c ≤ 'Z'))

/-- ASCII digit test. -/
def isAsciiDigit (c : Char) : Bool := ('0' ≤ c) && (c ≤ '9')

/-- URL scheme characters after the first. -/
def isSchemeChar (c : Char) : Bool :=
  isAsciiAlpha c || isAsciiDigit c || (c == '+') || (c == '-') || (c == '.')

/-- A scheme is a letter followed by scheme characters. -/
def validScheme : List Char → Bool
  | [] => false
  | c :: cs => isAsciiAlpha c && cs.all isSchemeChar

/-- The special schemes of the WHATWG URL standard, whose hosts are parsed
as domains or IP addresses; every other scheme (s3, s3a, gs included) gets
an opaque host. -/
def specialSchemes : List (List Char) :=
  ["http".data, "https".data, "ws".data, "wss".data, "ftp".data, "file".data]

/-- Is the (lowercased) scheme special. -/
def isSpecialScheme (s : List Char) : Bool := specialSchemes.any (fun t => t == s)

/-- Host characters admitted by the model (a subset of what the url crate
accepts: no percent escapes, no brackets, no unusual symbols). -/
def isHostChar (c : Char) : Bool :=
  isAsciiAlpha c || isAsciiDigit c || (c == '.') || (c == '-') || (c == '_')

/-- Path characters admitted by the model (a subset of what the url crate
accepts: no percent escapes, query or fragment delimiters). -/
def isPathChar (c : Char) : Bool :=
  isAsciiAlpha c || isAsciiDigit c || (c == '/') || (c == '.') || (c == '-') ||
  (c == '_') || (c == '~')

/-- The model rejects paths containing single-dot or double-dot segments,
which the WHATWG parser would rewrite; on the remaining paths parsing is
normalization-free. -/
def noDotSegments (p : List Char) : Bool :=
  (splitOnChar '/' p).all (fun seg => !(seg == ['.']) && !(seg == ['.', '.']))

/-- Conservative test for hosts the WHATWG domain parser would treat as
IPv4 candidates (last dot-separated label starting with a digit); the
model rejects such hosts for special schemes so that every stored host is
a genuine domain. -/
def lastLabelStartsDigit (host : List Char) : Bool :=
  match (splitOnChar '.' host).getLast? with
  | some (c :: _) => isAsciiDigit c
  | _ => false

/-- The parts of a parsed URL the object-store resolver consumes: the
lowercased scheme, the host (none when the authority is empty, matching
the url crate which stores an empty host as HostInternal None so that
domain() yields nothing), and the serialized path. -/
structure ModelUrl where
  scheme : List Char
  host : Option (List Char)
  path : List Char
deriving DecidableEq, Repr

/-- Url::as_str: the serialization scheme://host/path.  On the inputs the
model parser accepts, serialization reconstructs the input up to scheme
and domain lowercasing and the slash added to an empty special-scheme
path. -/
def ModelUrl.toStr (u : ModelUrl) : List Char :=
  u.scheme ++ ':' :: '/' :: '/' :: (u.host.getD []) ++ u.path

/-- Url::domain: the url crate returns the host string whenever the host
is stored as a domain.  Non-special schemes store any non-empty opaque
host (IPv4-shaped text included) as a domain, and the model's special-
scheme hosts are genuine domains by construction, so this is exactly the
stored host. -/
def ModelUrl.domain (u : ModelUrl) : Option (List Char) := u.host

/-- Model of Url::parse from the url crate, restricted to URLs of the
shape scheme://host/path over the character sets above: the scheme is
lowercased; special schemes require a non-empty domain host (lowercased);
other schemes take the host text opaquely, an empty one standing absent;
the path is kept verbatim except that an empty special-scheme path
serializes as a single slash. -/
def parseUrl (s : List Char) : Option ModelUrl :=
  let schemeRaw := s.takeWhile (fun c => c != ':')
  match s.dropWhile (fun c => c != ':') with
  | ':' :: '/' :: '/' :: rest =>
    if validScheme schemeRaw then
      let scheme := lowerStr schemeRaw
      let hostStr := rest.takeWhile (fun c => c != '/')
      let pathStr := rest.dropWhile (fun c => c != '/')
      if hostStr.all isHostChar && pathStr.all isPathChar && noDotSegments pathStr then
        if isSpecialScheme scheme then
          if hostStr.isEmpty || lastLabelStartsDigit hostStr then none
          else some ⟨scheme, some (lowerStr hostStr),
                     if pathStr.isEmpty then ['/'] else pathStr⟩
        else
          some ⟨scheme, if hostStr.isEmpty then none else some hostStr, pathStr⟩
      else none
    else none
  | _ => none

/-- The typed location variants from signed_url.rs. -/
inductive ObjectStore
  | S3 (url bucket path : List Char)
  | Gcs (url bucket path : List Char)
  | NotAvailable (url : List Char)
deriving DecidableEq, Repr

/-- The only failure of ObjectStore::from_str: the URL does not parse. -/
inductive UrlError
  | parse
deriving DecidableEq, Repr

/-- url.path().strip_prefix(slash).unwrap_or(empty): drop one leading
slash; a path not starting with a slash collapses to the empty string. -/
def stripLeadingSlash : List Char → List Char
  | '/' :: rest => rest
  | _ => []

/-- ObjectStore::from_str from signed_url.rs: parse the URL, then
dispatch on the scheme; s3 and s3a map to the S3 variant, gs to Gcs, and
every other scheme to NotAvailable carrying only the serialized URL.
Bucket is domain() defaulted to the empty string, path is the URL path
with one leading slash stripped. -/
def ObjectStore.fromStr (input : List Char) : Except UrlError ObjectStore :=
  match parseUrl input with
  | none => .error .parse
  | some u =>
    if u.scheme = ("s3".data) then
      .ok (.S3 u.toStr (u.domain.getD []) (stripLeadingSlash u.path))
    else if u.scheme = ("s3a".data) then
      .ok (.S3 u.toStr (u.domain.getD []) (stripLeadingSlash u.path))
    else if u.scheme = ("gs".data) then
      .ok (.Gcs u.toStr (u.domain.getD []) (stripLeadingSlash u.path))
    else .ok (.NotAvailable u.toStr)

/-- The bucket field of a classified location, when the variant has one. -/
def ObjectStore.bucketOf : ObjectStore → Option (List Char)
  | .S3 _ b _ => some b
  | .Gcs _ b _ => some b
  | .NotAvailable _ => none

/-- Every digit the hex formatter produces is a hex digit. -/
theorem hexDigitChar_hex (n : Nat) : isHexDigit (hexDigitChar n) = true := by
  unfold hexDigitChar
  split <;> decide

/-- Characters of a hex encoding are hex digits. -/
theorem mem_hexEncode {c : Char} : ∀ {bs : List Byte}, c ∈ hexEncode bs → isHexDigit c = true := by
  intro bs
  induction bs with
  | nil => intro h; simp [hexEncode] at h
  | cons b bs ih =>
    intro h
    simp only [hexEncode, List.mem_cons] at h
    rcases h with h | h | h
    · subst h; exact hexDigitChar_hex _
    · subst h; exact hexDigitChar_hex _
    · exact ih h

/-- A hex encoding never contains a dot. -/
theorem dot_not_mem_hexEncode (bs : List Byte) : '.' ∉ hexEncode bs := fun h =>
  absurd (mem_hexEncode h) (by decide)

/-- Characters the hex digit accumulator adds are hex digits. -/
theorem mem_hexOfNatCore : ∀ (fuel n : Nat) (acc : List Char),
    (∀ c ∈ acc, isHexDigit c = true) → ∀ c ∈ hexOfNatCore fuel n acc, isHexDigit c = true := by
  intro fuel
  induction fuel with
  | zero => intro n acc hacc c hc; exact hacc c hc
  | succ fuel ih =>
    intro n acc hacc c hc
    simp only [hexOfNatCore] at hc
    by_cases hn : n < 16
    · rw [if_pos hn] at hc
      rcases List.mem_cons.mp hc with h | h
      · subst h; exact hexDigitChar_hex _
      · exact hacc c h
    · rw [if_neg hn] at hc
      refine ih (n / 16) _ ?_ c hc
      intro c' hc'
      rcases List.mem_cons.mp hc' with h | h
      · subst h; exact hexDigitChar_hex _
      · exact hacc c' h

/-- Characters of a lower-hex formatted number are hex digits. -/
theorem mem_hexOfNat {c : Char} {n : Nat} (h : c ∈ hexOfNat n) : isHexDigit c = true :=
  mem_hexOfNatCore (n + 1) n [] (by intro c hc; cases hc) c h

/-- A lower-hex formatted number never contains a dot. -/
theorem dot_not_mem_hexOfNat (n : Nat) : '.' ∉ hexOfNat n := fun h =>
  absurd (mem_hexOfNat h) (by decide)

/-- The digit accumulator only prepends to its accumulator. -/
theorem hexOfNatCore_suffix : ∀ (fuel n : Nat) (acc : List Char),
    ∃ l, hexOfNatCore fuel n acc = l ++ acc := by
  intro fuel
  induction fuel with
  | zero => exact fun n acc => ⟨[], rfl⟩
  | succ fuel ih =>
    intro n acc
    simp only [hexOfNatCore]
    by_cases hn : n < 16
    · rw [if_pos hn]; exact ⟨[hexDigitChar (n % 16)], rfl⟩
    · rw [if_neg hn]
      obtain ⟨l, hl⟩ := ih (n / 16) (hexDigitChar (n % 16) :: acc)
      exact ⟨l ++ [hexDigitChar (n % 16)], by rw [hl]; simp⟩

/-- A formatted number has at least one digit. -/
theorem hexOfNat_ne_nil (n : Nat) : hexOfNat n ≠ [] := by
  show hexOfNatCore (n + 1) n [] ≠ []
  simp only [hexOfNatCore]
  by_cases hn : n < 16
  · rw [if_pos hn]; simp
  · rw [if_neg hn]
    obtain ⟨l, hl⟩ := hexOfNatCore_suffix n (n / 16) [hexDigitChar (n % 16)]
    rw [hl]; simp

/-- A hex encoding is empty exactly for the empty byte string. -/
theorem hexEncode_eq_nil_iff (bs : List Byte) : hexEncode bs = [] ↔ bs = [] := by
  cases bs <;> simp [hexEncode]

/-- Decoding a produced digit recovers its value. -/
theorem hexDigitVal_hexDigitChar : ∀ n : Fin 16, hexDigitVal (hexDigitChar n.val) = some n.val := by
  decide

/-- Hex decoding inverts hex encoding. -/
theorem hexDecode_hexEncode : ∀ bs : List Byte, hexDecode (hexEncode bs) = some bs := by
  intro bs
  induction bs with
  | nil => rfl
  | cons b bs ih =>
    have hb1 : b.val / 16 < 16 := by have := b.isLt; omega
    have hb2 : b.val % 16 < 16 := by omega
    have h1 := hexDigitVal_hexDigitChar ⟨b.val / 16, hb1⟩
    have h2 := hexDigitVal_hexDigitChar ⟨b.val % 16, hb2⟩
    have hb : (16 * (b.val / 16) + b.val % 16) % 256 = b.val := by
      have := b.isLt; omega
    simp [hexEncode, hexDecode, h1, h2, ih, Fin.ext_iff, hb]

/-- The verify splitter fails exactly on dot-free strings. -/
theorem rsplit2_eq_none_iff : ∀ l : List Char, rsplit2 l = none ↔ '.' ∉ l := by
  intro l
  induction l with
  | nil => simp [rsplit2]
  | cons c rest ih =>
    constructor
    · intro h
      simp only [rsplit2] at h
      cases hr : rsplit2 rest with
      | some p => rw [hr] at h; exact absurd h (by simp)
      | none =>
        rw [hr] at h
        have hc : ¬ c = '.' := by
          intro hc; rw [if_pos hc] at h; exact absurd h (by simp)
        intro hmem
        rcases List.mem_cons.mp hmem with he | he
        · exact hc he.symm
        · exact (ih.mp hr) he
    · intro h
      have hc : ¬ c = '.' := fun hc => h (List.mem_cons.mpr (Or.inl hc.symm))
      have hrest : '.' ∉ rest := fun hr => h (List.mem_cons.mpr (Or.inr hr))
      simp only [rsplit2, ih.mpr hrest]
      rw [if_neg hc]

/-- Splitting a token of the form body dot sig, with sig dot-free,
recovers exactly the signature and the body. -/
theorem rsplit2_append (body sig : List Char) (hsig : '.' ∉ sig) :
    rsplit2 (body ++ '.' :: sig) = some (sig, body) := by
  induction body with
  | nil =>
    simp only [List.nil_append, rsplit2, (rsplit2_eq_none_iff sig).mpr hsig]
    simp
  | cons c body ih => simp only [List.cons_append, rsplit2, List.append_eq, ih]

/-- Dropping up to the first dot of a token whose head segment is
dot-free lands exactly on that first dot. -/
theorem dropWhile_to_dot (a r : List Char) (ha : '.' ∉ a) :
    (a ++ '.' :: r).dropWhile (fun c => c != '.') = '.' :: r := by
  induction a with
  | nil => simp [List.dropWhile]
  | cons c a ih =>
    have hc : ¬ c = '.' := fun hc => ha (List.mem_cons.mpr (Or.inl hc.symm))
    have ha' : '.' ∉ a := fun h => ha (List.mem_cons.mpr (Or.inr h))
    have hb : (c != '.') = true := by simpa using hc
    simp only [List.cons_append, List.dropWhile, hb, List.append_eq]
    exact ih ha'

/-- A separator-free string is a single segment. -/
theorem splitOnChar_no_sep {sep : Char} : ∀ {l : List Char}, sep ∉ l → splitOnChar sep l = [l] := by
  intro l
  induction l with
  | nil => intro _; rfl
  | cons c rest ih =>
    intro h
    have hc : ¬ c = sep := fun hc => h (List.mem_cons.mpr (Or.inl hc.symm))
    have hrest : sep ∉ rest := fun hr => h (List.mem_cons.mpr (Or.inr hr))
    simp only [splitOnChar, ih hrest]
    rw [if_neg hc]

/-- Splitting past a separator-free head segment peels it off. -/
theorem splitOnChar_append (sep : Char) (a r : List Char) (ha : sep ∉ a) :
    splitOnChar sep (a ++ sep :: r) = a :: splitOnChar sep r := by
  induction a with
  | nil => simp [splitOnChar]
  | cons c a ih =>
    have hc : ¬ c = sep := fun hc => ha (List.mem_cons.mpr (Or.inl hc.symm))
    have ha' : sep ∉ a := fun h => ha (List.mem_cons.mpr (Or.inr h))
    simp only [List.cons_append, splitOnChar, List.append_eq, ih ha']
    rw [if_neg hc]

/-- Dot counting distributes over concatenation. -/
theorem countDots_append (a b : List Char) :
    countDots (a ++ b) = countDots a + countDots b := by
  simp [countDots, List.filter_append]

/-- A leading dot adds one to the count. -/
theorem countDots_cons_dot (l : List Char) : countDots ('.' :: l) = countDots l + 1 := by
  simp [countDots, List.filter_cons]

/-- A dot-free string counts zero dots. -/
theorem countDots_eq_zero {l : List Char} (h : '.' ∉ l) : countDots l = 0 := by
  induction l with
  | nil => rfl
  | cons c rest ih =>
    have hc : ¬ c = '.' := fun hc => h (List.mem_cons.mpr (Or.inl hc.symm))
    have hrest : '.' ∉ rest := fun hr => h (List.mem_cons.mpr (Or.inr hr))
    have hb : (c == '.') = false := by simpa using hc
    simpa [countDots, List.filter_cons, hb] using ih hrest

/-- eq_ignore_ascii_case compares the ASCII lowercasings. -/
theorem eqIgnoreAsciiCase_iff : ∀ a b : List Char,
    eqIgnoreAsciiCase a b = true ↔ lowerStr a = lowerStr b := by
  intro a
  induction a with
  | nil => intro b; cases b <;> simp [eqIgnoreAsciiCase, lowerStr]
  | cons c a ih =>
    intro b
    cases b with
    | nil => simp [eqIgnoreAsciiCase, lowerStr]
    | cons d b =>
      simp only [eqIgnoreAsciiCase, lowerStr, List.map, Bool.and_eq_true, beq_iff_eq,
        List.cons.injEq]
      constructor
      · rintro ⟨h1, h2⟩; exact ⟨h1, (ih b).mp h2⟩
      · rintro ⟨h1, h2⟩; exact ⟨h1, (ih b).mpr h2⟩

/-- new_exp succeeds on a nonnegative TTL whose expiry fits in i64. -/
theorem new_exp_ok {now : Nat} {ttl : Int} (h0 : 0 ≤ ttl)
    (hrep : now + ttl.toNat ≤ I64MAX) :
    new_exp now ttl = .ok (now + ttl.toNat) := by
  rw [new_exp, if_neg (by omega), if_pos hrep]

/-- When the expiry computation succeeds, sign returns the three-segment
serialization under every algorithm. -/
theorem sign_eq (M : MacModel) (tid : List Byte) (ttl : Int) (now : Nat) (h : Hasher)
    {exp : Nat} (hx : new_exp now ttl = .ok exp) :
    Utility.sign M tid ttl now h = .ok (signCore M h tid exp) := by
  cases h <;> simp [Utility.sign, hx]

/-- verify accepts any token whose last segment decodes to the MAC of
everything before the last dot. -/
theorem verify_body_ok (M : MacModel) (h : Hasher) (body sig : List Char)
    (hsig : '.' ∉ sig) (hdec : hexDecode sig = some (M.mac h body)) :
    Utility.verify M (body ++ '.' :: sig) h = .ok () := by
  have hs := rsplit2_append body sig hsig
  cases h <;> simp [Utility.verify, hs, verifyCore, hdec]

/-- verify rejects with the MAC-mismatch error any token whose last
segment decodes to something other than the MAC of the body. -/
theorem verify_body_mac_err (M : MacModel) (h : Hasher) (body sig : List Char)
    (sigBytes : List Byte) (hsig : '.' ∉ sig) (hdec : hexDecode sig = some sigBytes)
    (hne : M.mac h body ≠ sigBytes) :
    Utility.verify M (body ++ '.' :: sig) h = .error .mac := by
  have hs := rsplit2_append body sig hsig
  cases h <;> simp [Utility.verify, hs, verifyCore, hdec, hne]

/-- Claim C1: HMAC round-trip.  For every token id, every TTL with
0 ≤ ttl whose resulting expiry is representable as i64, every clock value
and each of the four supported algorithms, verify accepts the token that
sign produces, for every MAC instance. -/
theorem hmac_sign_verify_roundtrip (M : MacModel) (h : Hasher) (tid : List Byte)
    (ttl : Int) (now : Nat) (h0 : 0 ≤ ttl) (hrep : now + ttl.toNat ≤ I64MAX) :
    ∃ tok, Utility.sign M tid ttl now h = .ok tok ∧
      Utility.verify M tok h = .ok () := by
  refine ⟨signCore M h tid (now + ttl.toNat),
    sign_eq M tid ttl now h (new_exp_ok h0 hrep), ?_⟩
  exact verify_body_ok M h (tokenBody tid (now + ttl.toNat)) _
    (dot_not_mem_hexEncode _) (hexDecode_hexEncode _)

/-- Witness for C1: a concrete round-trip under SHA-256 with token id 01,
TTL 5 at clock value 100. -/
theorem hmac_sign_verify_roundtrip_witness :
    (0 : Int) ≤ 5 ∧ 100 + (5 : Int).toNat ≤ I64MAX ∧
    ∃ tok, Utility.sign demoMacModel [(1 : Byte)] 5 100 .Sha256 = .ok tok ∧
      Utility.verify demoMacModel tok .Sha256 = .ok () :=
  ⟨by decide, by decide,
   hmac_sign_verify_roundtrip demoMacModel .Sha256 [(1 : Byte)] 5 100 (by decide) (by decide)⟩

/-- Claim C2: tamper detection.  Replacing the token-id segment of a
signed token by the hex encoding of a different token id and
re-serializing makes verify fail with the MAC-mismatch error, for each of
the four algorithms, whenever the MAC distinguishes the two bodies (the
defining property of the HMAC primitive; with a fixed-output-length
function an unconditional statement is cryptographically unprovable). -/
theorem hmac_tamper_detection (M : MacModel) (h : Hasher) (tid tid' : List Byte)
    (ttl : Int) (now exp : Nat) (hx : new_exp now ttl = .ok exp) (hne : tid' ≠ tid)
    (hmacne : M.mac h (tokenBody tid' exp) ≠ M.mac h (tokenBody tid exp)) :
    ∃ tok, Utility.sign M tid ttl now h = .ok tok ∧
      Utility.verify M (replaceFirstSeg tok (hexEncode tid')) h = .error .mac := by
  refine ⟨signCore M h tid exp, sign_eq M tid ttl now h hx, ?_⟩
  have hdw : (signCore M h tid exp).dropWhile (fun c => c != '.') =
      '.' :: (hexOfNat exp ++ '.' :: hexEncode (M.mac h (tokenBody tid exp))) := by
    have := dropWhile_to_dot (hexEncode tid)
      (hexOfNat exp ++ '.' :: hexEncode (M.mac h (tokenBody tid exp)))
      (dot_not_mem_hexEncode _)
    simpa [signCore, tokenBody, List.append_assoc] using this
  have hre : replaceFirstSeg (signCore M h tid exp) (hexEncode tid') =
      tokenBody tid' exp ++ '.' :: hexEncode (M.mac h (tokenBody tid exp)) := by
    rw [replaceFirstSeg, hdw]
    simp [tokenBody, List.append_assoc]
  rw [hre]
  exact verify_body_mac_err M h (tokenBody tid' exp) _ _
    (dot_not_mem_hexEncode _) (hexDecode_hexEncode _) hmacne

/-- Witness for C2: token id 00 signed at clock 100 with TTL 0 under
SHA-256, tampered to the empty token id; the demo MAC separates the two
bodies and verify reports the MAC mismatch. -/
theorem hmac_tamper_detection_witness :
    new_exp 100 0 = .ok 100 ∧ ([] : List Byte) ≠ [(0 : Byte)] ∧
    demoMacModel.mac .Sha256 (tokenBody [] 100) ≠
      demoMacModel.mac .Sha256 (tokenBody [(0 : Byte)] 100) ∧
    ∃ tok, Utility.sign demoMacModel [(0 : Byte)] 0 100 .Sha256 = .ok tok ∧
      Utility.verify demoMacModel (replaceFirstSeg tok (hexEncode [])) .Sha256 =
        .error .mac :=
  ⟨by decide, by decide, by decide,
   hmac_tamper_detection demoMacModel .Sha256 [(0 : Byte)] [] 0 100 100
     (by decide) (by decide) (by decide)⟩

/-- Claim C3 counterexample: the string a.b has one dot, not two, yet
verify reports the hex-decode error rather than the malformed-token
error; and appending the hex MAC of a.b.c after a dot yields a string
with three dots on which verify even succeeds. -/
theorem verify_segment_count_counterexample :
    countDots ("a.b".data) ≠ 2 ∧
    Utility.verify demoMacModel ("a.b".data) .Sha256 = .error .decode ∧
    TokenError.decode ≠ TokenError.parse ∧
    countDots ("a.b.c.".data ++ hexEncode (demoMacModel.mac .Sha256 ("a.b.c".data))) ≠ 2 ∧
    Utility.verify demoMacModel
      ("a.b.c.".data ++ hexEncode (demoMacModel.mac .Sha256 ("a.b.c".data)))
      .Sha256 = .ok () := by
  decide

/-- Claim C3 amended: verify returns the malformed-token error exactly
for strings containing no dot at all; every string containing at least
one dot passes segment splitting (everything after the last dot is the
signature) and proceeds to hex decoding and MAC comparison, so its
outcome, success or a decode or MAC error, is never the malformed-token
error.  verify is a total function, so it never panics. -/
theorem verify_malformed_iff_no_dot (M : MacModel) (token : List Char) (h : Hasher) :
    (('.' ∉ token) → Utility.verify M token h = .error .parse) ∧
    ('.' ∈ token → Utility.verify M token h ≠ .error .parse) := by
  constructor
  · intro hnd
    have hr := (rsplit2_eq_none_iff token).mpr hnd
    cases h <;> simp [Utility.verify, hr]
  · intro hd
    cases hr : rsplit2 token with
    | none => exact absurd ((rsplit2_eq_none_iff token).mp hr) (by simpa using hd)
    | some p =>
      obtain ⟨sig, body⟩ := p
      have hcore : ∀ hh, verifyCore M hh sig body ≠ .error .parse := by
        intro hh
        unfold verifyCore
        cases hexDecode sig with
        | none => simp
        | some sb => by_cases hmac : M.mac hh body = sb <;> simp [hmac]
      cases h <;> simp [Utility.verify, hr] <;> exact hcore _

/-- Witness for C3 amended: the dot-free string ab is rejected as
malformed, and the one-dot string a.b is rejected with a different
error. -/
theorem verify_malformed_iff_no_dot_witness :
    Utility.verify demoMacModel ("ab".data) .Sha256 = .error .parse ∧
    Utility.verify demoMacModel ("a.b".data) .Sha256 ≠ .error .parse :=
  ⟨(verify_malformed_iff_no_dot demoMacModel ("ab".data) .Sha256).1 (by decide),
   (verify_malformed_iff_no_dot demoMacModel ("a.b".data) .Sha256).2 (by decide)⟩

/-- Claim C4: verify does not enforce expiry.  Any token whose last
segment hex-decodes to the MAC of its body is accepted, whatever the
embedded expiry value, in particular when that expiry is strictly before
the given current time; verify takes no clock input at all (mirroring the
source, which never reads the system time in verify), so its outcome
cannot depend on the clock. -/
theorem verify_ignores_embedded_expiry (M : MacModel) (h : Hasher) (tid : List Byte)
    (exp now : Nat) (sig : List Char) (hpast : exp < now) (hsig : '.' ∉ sig)
    (hdec : hexDecode sig = some (M.mac h (tokenBody tid exp))) :
    Utility.verify M (tokenBody tid exp ++ '.' :: sig) h = .ok () :=
  verify_body_ok M h (tokenBody tid exp) sig hsig hdec

/-- Witness for C4: a token with embedded expiry 0, verified while the
clock reads 1, is accepted. -/
theorem verify_ignores_embedded_expiry_witness :
    0 < 1 ∧
    ('.' ∉ hexEncode (demoMacModel.mac .Sha256 (tokenBody [] 0))) ∧
    hexDecode (hexEncode (demoMacModel.mac .Sha256 (tokenBody [] 0))) =
      some (demoMacModel.mac .Sha256 (tokenBody [] 0)) ∧
    Utility.verify demoMacModel
      (tokenBody [] 0 ++ '.' :: hexEncode (demoMacModel.mac .Sha256 (tokenBody [] 0)))
      .Sha256 = .ok () :=
  ⟨by decide, by decide, by decide,
   verify_ignores_embedded_expiry demoMacModel .Sha256 [] 0 1 _
     (by decide) (by decide) (by decide)⟩

/-- Claim C8: a negative TTL is a reported error, never a panic or a
truncated expiry: the u64 conversion failure surfaces as the range error
from new_exp and hence from sign, for every token id, clock value and
algorithm; the claims-scheme expiry computation of profile.rs fails the
same way, for every chrono bound. -/
theorem negative_ttl_is_error (M : MacModel) (tid : List Byte) (ttl : Int) (now : Nat)
    (h : Hasher) (chronoMax : Nat) (hneg : ttl < 0) :
    new_exp now ttl = .error .range ∧
    Utility.sign M tid ttl now h = .error .range ∧
    profileNewExp chronoMax now ttl = .error .range := by
  have hx : new_exp now ttl = .error .range := by rw [new_exp, if_pos hneg]
  refine ⟨hx, ?_, by rw [profileNewExp, if_pos hneg]⟩
  cases h <;> simp [Utility.sign, hx]

/-- Witness for C8 at TTL minus one. -/
theorem negative_ttl_is_error_witness :
    (-1 : Int) < 0 ∧
    new_exp 100 (-1) = .error .range ∧
    Utility.sign demoMacModel [] (-1) 100 .Sha256 = .error .range ∧
    profileNewExp 1000000 100 (-1) = .error .range :=
  ⟨by decide, negative_ttl_is_error demoMacModel [] (-1) 100 .Sha256 1000000 (by decide)⟩

/-- Claim C9 counterexample: sign accepts the empty token id, and the
resulting token, here under SHA-256 with TTL 0 at clock 100, begins with
a dot: its first dot-separated segment is empty, so not every signed
token consists of three non-empty segments. -/
theorem sign_token_shape_counterexample :
    Utility.sign demoMacModel [] 0 100 .Sha256 =
      .ok ('.' :: ("64".data ++ '.' :: hexEncode (List.replicate 32 (demoByte 3)))) ∧
    splitDots ('.' :: ("64".data ++ '.' :: hexEncode (List.replicate 32 (demoByte 3)))) =
      [[], "64".data, hexEncode (List.replicate 32 (demoByte 3))] := by
  decide

/-- Claim C9 amended: every token sign returns has exactly two dots and
splits into three segments of hex digits; the expiry and MAC segments are
always non-empty (the MAC has the positive digest length of its
algorithm), while the token-id segment is empty exactly when the token id
itself is empty. -/
theorem sign_token_shape (M : MacModel) (tid : List Byte) (ttl : Int) (now : Nat)
    (h : Hasher) (tok : List Char) (hs : Utility.sign M tid ttl now h = .ok tok) :
    countDots tok = 2 ∧
    ∃ s1 s2 s3, splitDots tok = [s1, s2, s3] ∧
      (∀ c ∈ s1, isHexDigit c = true) ∧ (∀ c ∈ s2, isHexDigit c = true) ∧
      (∀ c ∈ s3, isHexDigit c = true) ∧
      s2 ≠ [] ∧ s3 ≠ [] ∧ (s1 = [] ↔ tid = []) := by
  obtain ⟨exp, hexp, htok⟩ :
      ∃ exp, new_exp now ttl = .ok exp ∧ tok = signCore M h tid exp := by
    cases hx : new_exp now ttl with
    | error e => cases h <;> simp [Utility.sign, hx] at hs
    | ok exp =>
      refine ⟨exp, rfl, ?_⟩
      cases h <;> simp [Utility.sign, hx] at hs <;> exact hs.symm
  subst htok
  have hshape : signCore M h tid exp =
      hexEncode tid ++ '.' :: (hexOfNat exp ++ '.' :: hexEncode (M.mac h (tokenBody tid exp))) := by
    simp [signCore, tokenBody, List.append_assoc]
  constructor
  · rw [hshape]
    rw [countDots_append, countDots_cons_dot, countDots_append, countDots_cons_dot,
      countDots_eq_zero (dot_not_mem_hexEncode tid),
      countDots_eq_zero (dot_not_mem_hexOfNat exp),
      countDots_eq_zero (dot_not_mem_hexEncode (M.mac h (tokenBody tid exp)))]
  · refine ⟨hexEncode tid, hexOfNat exp, hexEncode (M.mac h (tokenBody tid exp)),
      ?_, fun c hc => mem_hexEncode hc, fun c hc => mem_hexOfNat hc,
      fun c hc => mem_hexEncode hc, hexOfNat_ne_nil exp, ?_, hexEncode_eq_nil_iff tid⟩
    · rw [hshape]
      show splitOnChar '.' _ = _
      rw [splitOnChar_append '.' _ _ (dot_not_mem_hexEncode tid),
        splitOnChar_append '.' _ _ (dot_not_mem_hexOfNat exp),
        splitOnChar_no_sep (dot_not_mem_hexEncode (M.mac h (tokenBody tid exp)))]
    · intro hnil
      have hlen := M.len h (tokenBody tid exp)
      rw [(hexEncode_eq_nil_iff _).mp hnil] at hlen
      cases h <;> simp [digestLen] at hlen

/-- Witness for C9 amended: the token signed under SHA-224 for token id
01 with TTL 3 at clock 10. -/
theorem sign_token_shape_witness :
    countDots (signCore demoMacModel .Sha224 [(1 : Byte)] 13) = 2 ∧
    ∃ s1 s2 s3, splitDots (signCore demoMacModel .Sha224 [(1 : Byte)] 13) = [s1, s2, s3] ∧
      (∀ c ∈ s1, isHexDigit c = true) ∧ (∀ c ∈ s2, isHexDigit c = true) ∧
      (∀ c ∈ s3, isHexDigit c = true) ∧
      s2 ≠ [] ∧ s3 ≠ [] ∧ (s1 = [] ↔ [(1 : Byte)] = ([] : List Byte)) :=
  sign_token_shape demoMacModel [(1 : Byte)] 3 10 .Sha224
    (signCore demoMacModel .Sha224 [(1 : Byte)] 13) (by decide)

/-- Claim C5: algorithm selection.  The configured name is matched
against the four algorithm names ASCII-case-insensitively, and any string
matching none of them resolves to the SHA-256 default, never an error:
the selector is a total function into Hasher. -/
theorem hasher_selection (s : List Char) :
    (lowerStr s = ("sha224".data) → hasherOfConfig s = .Sha224) ∧
    (lowerStr s = ("sha256".data) → hasherOfConfig s = .Sha256) ∧
    (lowerStr s = ("sha384".data) → hasherOfConfig s = .Sha384) ∧
    (lowerStr s = ("sha512".data) → hasherOfConfig s = .Sha512) ∧
    (lowerStr s ∉ [("sha224".data), ("sha256".data), ("sha384".data), ("sha512".data)] →
      hasherOfConfig s = .Sha256) := by
  have key : ∀ t : List Char, eqIgnoreAsciiCase s t = true ↔ lowerStr s = lowerStr t :=
    fun t => eqIgnoreAsciiCase_iff s t
  have pos : ∀ t w : List Char, lowerStr t = w → lowerStr s = w →
      eqIgnoreAsciiCase s t = true := by
    intro t w ht hs
    exact (key t).mpr (hs.trans ht.symm)
  have neg : ∀ t w : List Char, lowerStr t = w → lowerStr s ≠ w →
      eqIgnoreAsciiCase s t = false := by
    intro t w ht hs
    rw [Bool.eq_false_iff]
    intro hb
    exact hs (((key t).mp hb).trans ht)
  refine ⟨?_, ?_, ?_, ?_, ?_⟩
  · intro h1
    have e1 := pos ("Sha224".data) ("sha224".data) (by decide) h1
    simp [hasherOfConfig, Hasher.fromStr, e1]
  · intro h2
    have e1 := neg ("Sha224".data) ("sha224".data) (by decide) (by rw [h2]; decide)
    have e2 := pos ("Sha256".data) ("sha256".data) (by decide) h2
    simp [hasherOfConfig, Hasher.fromStr, e1, e2]
  · intro h3
    have e1 := neg ("Sha224".data) ("sha224".data) (by decide) (by rw [h3]; decide)
    have e2 := neg ("Sha256".data) ("sha256".data) (by decide) (by rw [h3]; decide)
    have e3 := pos ("Sha384".data) ("sha384".data) (by decide) h3
    simp [hasherOfConfig, Hasher.fromStr, e1, e2, e3]
  · intro h4
    have e1 := neg ("Sha224".data) ("sha224".data) (by decide) (by rw [h4]; decide)
    have e2 := neg ("Sha256".data) ("sha256".data) (by decide) (by rw [h4]; decide)
    have e3 := neg ("Sha384".data) ("sha384".data) (by decide) (by rw [h4]; decide)
    have e4 := pos ("Sha512".data) ("sha512".data) (by decide) h4
    simp [hasherOfConfig, Hasher.fromStr, e1, e2, e3, e4]
  · intro h5
    simp only [List.mem_cons, List.not_mem_nil, or_false, not_or] at h5
    obtain ⟨n1, n2, n3, n4⟩ := h5
    have e1 := neg ("Sha224".data) ("sha224".data) (by decide) n1
    have e2 := neg ("Sha256".data) ("sha256".data) (by decide) n2
    have e3 := neg ("Sha384".data) ("sha384".data) (by decide) n3
    have e4 := neg ("Sha512".data) ("sha512".data) (by decide) n4
    simp [hasherOfConfig, Hasher.fromStr, e1, e2, e3, e4]

/-- Witness for C5: the uppercase spelling SHA384 selects SHA-384 and the
unrecognized name orange falls back to the SHA-256 default. -/
theorem hasher_selection_witness :
    hasherOfConfig ("SHA384".data) = .Sha384 ∧
    hasherOfConfig ("orange".data) = .Sha256 :=
  ⟨(hasher_selection ("SHA384".data)).2.2.1 (by decide),
   (hasher_selection ("orange".data)).2.2.2.2 (by decide)⟩

/-- Claim C6: role gating.  The admin path resolves to the Admin
requirement and the shares path to Guest; for every path the requirement
is computed by stripping leading slashes, taking the first segment and
parsing it as a Role, any unparseable segment giving Guest; a decoded
claim set whose role is Guest is rejected whenever the path requires
Admin, and every decoded claim set is accepted when the path requires
Guest. -/
theorem role_gating :
    required_role_of ("/admin/thing".data) = .Admin ∧
    required_role_of ("/shares".data) = .Guest ∧
    (∀ path, Role.fromStr (firstSegment (trimLeadingSlashes path)) = none →
      required_role_of path = .Guest) ∧
    (∀ path claims, required_role_of path = .Admin → claims.role = .Guest →
      Claims.from_request_parts path (some (some claims)) = .error .unauthorized) ∧
    (∀ path claims, required_role_of path = .Guest →
      Claims.from_request_parts path (some (some claims)) = .ok claims) := by
  refine ⟨by decide, by decide, ?_, ?_, ?_⟩
  · intro path h
    simp [required_role_of, h]
  · intro path claims hreq hrole
    simp [Claims.from_request_parts, hreq, hrole]
  · intro path claims hreq
    simp [Claims.from_request_parts, hreq]

/-- Witness for C6: a Guest claim set is rejected on the admin path and
an Admin claim set is accepted on the shares path. -/
theorem role_gating_witness :
    Claims.from_request_parts ("/admin/thing".data)
      (some (some ⟨[], [], [], .Guest, 0⟩)) = .error .unauthorized ∧
    Claims.from_request_parts ("/shares".data)
      (some (some ⟨[], [], [], .Admin, 0⟩)) = .ok ⟨[], [], [], .Admin, 0⟩ :=
  ⟨role_gating.2.2.2.1 ("/admin/thing".data) ⟨[], [], [], .Guest, 0⟩ (by decide) rfl,
   role_gating.2.2.2.2 ("/shares".data) ⟨[], [], [], .Admin, 0⟩ (by decide)⟩

/-- Claim C7: object-store URL classification.  The s3, s3a and gs
examples extract bucket and path as claimed, an https URL maps to the
NotAvailable variant, and on every URL the model parser accepts the
dispatch is total: s3 and s3a URLs yield the S3 variant, gs URLs the Gcs
variant, and every other scheme the NotAvailable variant carrying only
the URL string; the result is always a value, never an error. -/
theorem objectstore_classification :
    ObjectStore.fromStr ("s3://bucket/key/sub".data) =
      .ok (.S3 ("s3://bucket/key/sub".data) ("bucket".data) ("key/sub".data)) ∧
    ObjectStore.fromStr ("s3a://bucket/key/sub".data) =
      .ok (.S3 ("s3a://bucket/key/sub".data) ("bucket".data) ("key/sub".data)) ∧
    ObjectStore.fromStr ("gs://bucket/key".data) =
      .ok (.Gcs ("gs://bucket/key".data) ("bucket".data) ("key".data)) ∧
    ObjectStore.fromStr ("https://example.com/x".data) =
      .ok (.NotAvailable ("https://example.com/x".data)) ∧
    (∀ s u, parseUrl s = some u →
      (∃ st, ObjectStore.fromStr s = .ok st) ∧
      (u.scheme = ("s3".data) ∨ u.scheme = ("s3a".data) →
        ObjectStore.fromStr s =
          .ok (.S3 u.toStr (u.domain.getD []) (stripLeadingSlash u.path))) ∧
      (u.scheme = ("gs".data) →
        ObjectStore.fromStr s =
          .ok (.Gcs u.toStr (u.domain.getD []) (stripLeadingSlash u.path))) ∧
      (u.scheme ≠ ("s3".data) → u.scheme ≠ ("s3a".data) → u.scheme ≠ ("gs".data) →
        ObjectStore.fromStr s = .ok (.NotAvailable u.toStr))) := by
  refine ⟨by decide, by decide, by decide, by decide, ?_⟩
  intro s u hu
  refine ⟨?_, ?_, ?_, ?_⟩
  · by_cases h1 : u.scheme = ("s3".data)
    · exact ⟨.S3 u.toStr (u.domain.getD []) (stripLeadingSlash u.path),
        by simp [ObjectStore.fromStr, hu, h1]⟩
    · by_cases h2 : u.scheme = ("s3a".data)
      · exact ⟨.S3 u.toStr (u.domain.getD []) (stripLeadingSlash u.path),
          by simp [ObjectStore.fromStr, hu, h1, h2]⟩
      · by_cases h3 : u.scheme = ("gs".data)
        · exact ⟨.Gcs u.toStr (u.domain.getD []) (stripLeadingSlash u.path),
            by simp [ObjectStore.fromStr, hu, h1, h2, h3]⟩
        · exact ⟨.NotAvailable u.toStr,
            by simp [ObjectStore.fromStr, hu, h1, h2, h3]⟩
  · rintro (h1 | h2)
    · simp [ObjectStore.fromStr, hu, h1]
    · have h1 : u.scheme ≠ ("s3".data) := by rw [h2]; decide
      simp [ObjectStore.fromStr, hu, h1, h2]
  · intro h3
    have h1 : u.scheme ≠ ("s3".data) := by rw [h3]; decide
    have h2 : u.scheme ≠ ("s3a".data) := by rw [h3]; decide
    simp [ObjectStore.fromStr, hu, h1, h2, h3]
  · intro h1 h2 h3
    simp [ObjectStore.fromStr, hu, h1, h2, h3]

/-- Witness for C7: the wss URL parses into the expected parts and is
classified as NotAvailable. -/
theorem objectstore_classification_witness :
    parseUrl ("wss://example.org/a".data) =
      some ⟨"wss".data, some ("example.org".data), "/a".data⟩ ∧
    ObjectStore.fromStr ("wss://example.org/a".data) =
      .ok (.NotAvailable
        (ModelUrl.toStr ⟨"wss".data, some ("example.org".data), "/a".data⟩)) :=
  ⟨by decide,
   ((objectstore_classification.2.2.2.2 ("wss://example.org/a".data)
       ⟨"wss".data, some ("example.org".data), "/a".data⟩ (by decide)).2.2.2
     (by decide) (by decide) (by decide))⟩

/-- Claim C10 counterexample: the s3 URL with the IPv4-looking host
127.0.0.1 parses fine, but its bucket is the host text 127.0.0.1, not the
empty string: s3 is not a special scheme, so the url crate stores the
host opaquely as a domain and domain() returns it. -/
theorem bucket_ipv4_counterexample :
    ObjectStore.fromStr ("s3://127.0.0.1/key".data) =
      .ok (.S3 ("s3://127.0.0.1/key".data) ("127.0.0.1".data) ("key".data)) ∧
    ("127.0.0.1".data : List Char) ≠ [] := by
  decide

/-- Claim C10 amended: for every s3, s3a or gs URL the model parser
accepts, classification succeeds with an S3 or Gcs variant whose bucket
is exactly the host text when a host is present (IPv4-shaped hosts
included) and the empty string exactly when the host is absent or
empty. -/
theorem bucket_is_host_text (s : List Char) (u : ModelUrl) (hu : parseUrl s = some u)
    (hsch : u.scheme = ("s3".data) ∨ u.scheme = ("s3a".data) ∨ u.scheme = ("gs".data)) :
    ∃ st, ObjectStore.fromStr s = .ok st ∧
      ObjectStore.bucketOf st = some (u.host.getD []) := by
  rcases hsch with h1 | h2 | h3
  · exact ⟨.S3 u.toStr (u.domain.getD []) (stripLeadingSlash u.path),
      by simp [ObjectStore.fromStr, hu, h1], rfl⟩
  · have h1 : u.scheme ≠ ("s3".data) := by rw [h2]; decide
    exact ⟨.S3 u.toStr (u.domain.getD []) (stripLeadingSlash u.path),
      by simp [ObjectStore.fromStr, hu, h1, h2], rfl⟩
  · have h1 : u.scheme ≠ ("s3".data) := by rw [h3]; decide
    have h2 : u.scheme ≠ ("s3a".data) := by rw [h3]; decide
    exact ⟨.Gcs u.toStr (u.domain.getD []) (stripLeadingSlash u.path),
      by simp [ObjectStore.fromStr, hu, h1, h2, h3], rfl⟩

/-- Witness for C10 amended: the IPv4-looking s3 URL yields bucket
127.0.0.1 and the host-less s3 URL yields the empty bucket. -/
theorem bucket_is_host_text_witness :
    (∃ st, ObjectStore.fromStr ("s3://127.0.0.1/key".data) = .ok st ∧
      ObjectStore.bucketOf st = some ("127.0.0.1".data)) ∧
    (∃ st, ObjectStore.fromStr ("s3:///key".data) = .ok st ∧
      ObjectStore.bucketOf st = some []) :=
  ⟨bucket_is_host_text ("s3://127.0.0.1/key".data)
     ⟨"s3".data, some ("127.0.0.1".data), "/key".data⟩ (by decide) (Or.inl rfl),
   bucket_is_host_text ("s3:///key".data)
     ⟨"s3".data, none, "/key".data⟩ (by decide) (Or.inl rfl)⟩
